import Mathlib

/-!
Verification development for the `pytest-flakiness` plugin.

Shallow embedding of the code in `src/pytest_flakiness/`:
`reporter.py` (path normalization, attempt/status derivation, error
extraction, per-test aggregation, session finalization), `plugin.py`
(marker partitioning into tags and annotations), `uploader.py`
(4-phase upload protocol) and `github_oidc.py` (OIDC token fetching).

Machine-level details are modelled as follows: filesystem paths are
parsed into component lists over an abstract platform separator
character (POSIX hosts use `'/'`, Windows hosts use `'\\'`); `pathlib`'s
`resolve()` is modelled symlink-free as dot-segment elimination; HTTP
exchanges are modelled by an explicit world record supplying each
response, and side effects by explicit action traces.
-/

namespace PytestFlakiness

/-! ## Path model (pathlib semantics over an abstract separator) -/

/-- Split a character list on the separator, keeping empty chunks
(the raw chunk structure of the string). -/
def chopSep (sep : Char) : List Char → List (List Char)
  | [] => [[]]
  | c :: rest =>
    let r := chopSep sep rest
    if c = sep then [] :: r
    else
      match r with
      | [] => [[c]]
      | g :: gs => (c :: g) :: gs

/-- Path components of a string: split on the separator and drop empty
components, as `pathlib` does (collapsing repeated separators and
ignoring leading/trailing ones). -/
def splitPath (sep : Char) (s : String) : List String :=
  ((chopSep sep s.data).map (fun cs => String.mk cs)).filter (fun c => c ≠ "")

/-- Join character-list components with the separator. -/
def joinSep (sep : Char) : List (List Char) → List Char
  | [] => []
  | [g] => g
  | g :: rest => g ++ sep :: joinSep sep rest

/-- Rendering `str()` of a relative `pathlib` path: components joined by the
native separator, `"."` for the empty path. -/
def renderRel (sep : Char) (comps : List String) : String :=
  if comps = [] then "." else String.mk (joinSep sep (comps.map (fun c => c.data)))

/-- Check `Path.is_absolute()`: the string starts with the separator. -/
def isAbsolute (sep : Char) (s : String) : Bool :=
  match s.data with
  | [] => false
  | c :: _ => c = sep

/-- One step of dot-segment elimination: `"."` is dropped, `".."` pops
the last component, anything else is appended. -/
def resolveStep (acc : List String) (c : String) : List String :=
  if c = "." then acc
  else if c = ".." then acc.dropLast
  else acc ++ [c]

/-- Resolution `Path.resolve()` modelled symlink-free: eliminate `"."` and `".."`
components left to right (at the root, `".."` stays at the root). -/
def resolveDots (comps : List String) : List String :=
  comps.foldl resolveStep []

/-- The configuration of `Reporter.__init__`: the platform separator,
the resolved repository root and the pytest root, both as absolute
paths given by their component lists. -/
structure Reporter where
  sep : Char
  commit_id : String
  git_root : List String
  pytest_root : List String

/-- Operation `Reporter.normalize_path`: anchor a non-absolute input under the
pytest root, resolve it, and render it relative to the git root with
the native separator; `none` when the resolved path escapes the git
root (`relative_to` raises `ValueError`). -/
def Reporter.normalize_path (r : Reporter) (fspath : String) : Option String :=
  let comps := splitPath r.sep fspath
  let anchored := if isAbsolute r.sep fspath then comps else r.pytest_root ++ comps
  let resolved := resolveDots anchored
  if r.git_root.isPrefixOf resolved then
    some (renderRel r.sep (resolved.drop r.git_root.length))
  else
    none

/-! ## Statuses and report data model (`flakiness_report` types) -/

/-- The `report.outcome` values of a pytest `TestReport`. -/
inductive TestStatus
  | passed
  | failed
  | skipped
deriving DecidableEq, Repr

/-- The `report.when` values of a pytest `TestReport`. -/
inductive Phase
  | setup
  | call
  | teardown
deriving DecidableEq, Repr

/-- A `Location`: file path, line and column as recorded in the report. -/
structure Location where
  file : String
  line : Nat
  column : Nat
deriving DecidableEq, Repr

/-- A `ReportError`: message with optional stack, snippet and location. -/
structure ReportError where
  message : String
  stack : Option String := none
  snippet : Option String := none
  location : Option Location := none
deriving DecidableEq, Repr

/-- A `RunAttempt` as built by `pytest_runtest_logreport`. -/
structure RunAttempt where
  environmentIdx : Nat
  expectedStatus : TestStatus
  status : TestStatus
  startTimestamp : Int
  duration : Nat
  errors : List ReportError
deriving DecidableEq, Repr

/-- A test record in `Reporter.tests`. -/
structure FKTest where
  title : String
  location : Option Location
  attempts : List RunAttempt
  tags : List String
deriving DecidableEq, Repr

/-- The `reprcrash` data (`ReprFileLocation`): each field is optional to
model Python's `hasattr`/falsiness checks. -/
structure Crash where
  message : Option String
  path : Option String
  lineno : Option Nat
deriving DecidableEq, Repr

/-- The shapes `report.longrepr` can take: absent, a plain string, or a
structured representation with its textual rendering, an optional
`reprcrash` and the `lines` of the last traceback entry. -/
inductive LongreprValue
  | null
  | str (s : String)
  | structured (rendered : String) (reprcrash : Option Crash)
      (lastEntryLines : Option (List String))
deriving DecidableEq, Repr

/-- The fields of a pytest `TestReport` event consumed by the reporter.
`duration_ms` is `int(report.duration * 1000)`; `loc_fspath` and
`loc_lineno` come from the `report.location` triple (0-based line). -/
structure TestReportEv where
  nodeid : String
  phase : Phase
  outcome : TestStatus
  wasxfail : Bool
  duration_ms : Nat
  loc_fspath : String
  loc_lineno : Option Nat
  longrepr : LongreprValue
deriving Repr

/-- Property `report.failed` is `outcome == "failed"`. -/
def TestReportEv.failed (ev : TestReportEv) : Bool :=
  ev.outcome = TestStatus.failed

/-! ## `Reporter.parse_test_title` and `Reporter.parse_pytest_error` -/

/-- Split a character list at the first occurrence of `"::"`,
returning the part before and the part after (`split("::", 1)`). -/
def splitFirstColons : List Char → Option (List Char × List Char)
  | [] => none
  | ':' :: ':' :: rest => some ([], rest)
  | c :: rest =>
    match splitFirstColons rest with
    | some (l, r) => some (c :: l, r)
    | none => none

/-- Operation `Reporter.parse_test_title`: strip the leading `file::` segment of
the nodeid (`nodeid.split("::", 1)[1]`), falling back to the full
nodeid when no `::` is present. -/
def Reporter.parse_test_title (_r : Reporter) (nodeid : String) : String :=
  match splitFirstColons nodeid.data with
  | some (_, rest) => String.mk rest
  | none => nodeid

/-- The newline character used by `"\n".join(...)`. -/
def newlineChar : Char := Char.ofNat 10

/-- Operation `Reporter.parse_pytest_error`: three-tier error extraction.
`str(None)` in the file field is rendered as `"None"` exactly as the
source's `str(self.normalize_path(crash.path))` does. -/
def Reporter.parse_pytest_error (r : Reporter) (longrepr : LongreprValue) :
    Option ReportError :=
  match longrepr with
  | LongreprValue.null => none
  | LongreprValue.str s => some { message := s }
  | LongreprValue.structured rendered reprcrash lastEntryLines =>
    let e : ReportError := { message := rendered, stack := some rendered }
    let e :=
      match reprcrash with
      | none => e
      | some crash =>
        let e :=
          match crash.message with
          | some m => { e with message := m }
          | none => e
        match crash.path with
        | some p =>
          if p ≠ "" then
            { e with
              location := some {
                file := (match r.normalize_path p with
                  | some s => s
                  | none => "None"),
                line := (match crash.lineno with
                  | some n => n
                  | none => 0) + 1,
                column := 0 } }
          else e
        | none => e
    let e :=
      match lastEntryLines with
      | some lines =>
        if lines ≠ [] then
          let joined := String.intercalate (String.mk [newlineChar]) lines
          { e with snippet := some joined }
        else e
      | none => e
    some e

/-! ## `Reporter.pytest_runtest_logreport` -/

/-- The expected-status derivation of `pytest_runtest_logreport`:
default `"passed"`, `"failed"` when `report.wasxfail` is present, and
forced to `"skipped"` when the outcome is `"skipped"`. -/
def derive_expected_status (wasxfail : Bool) (outcome : TestStatus) : TestStatus :=
  let e := TestStatus.passed
  let e := if wasxfail then TestStatus.failed else e
  if outcome = TestStatus.skipped then TestStatus.skipped else e

/-- The declaration-site `Location` built by `pytest_runtest_logreport`
from `report.location` (line shifted to 1-based, column fixed at 1);
absent when the path normalizes outside the repository or the line is
`None`. -/
def build_location (r : Reporter) (ev : TestReportEv) : Option Location :=
  match r.normalize_path ev.loc_fspath, ev.loc_lineno with
  | some f, some l => some { file := f, line := l + 1, column := 1 }
  | _, _ => none

/-- The `RunAttempt` built by `pytest_runtest_logreport` for one
qualifying event (`now` is the wall clock in Unix ms at event time). -/
def build_attempt (r : Reporter) (now : Int) (ev : TestReportEv) : RunAttempt :=
  { environmentIdx := 0
    expectedStatus := derive_expected_status ev.wasxfail ev.outcome
    status := ev.outcome
    startTimestamp := now - ev.duration_ms
    duration := ev.duration_ms
    errors :=
      match r.parse_pytest_error ev.longrepr with
      | some err => if ev.failed then [err] else []
      | none => [] }

/-- Whether `pytest_runtest_logreport` processes the event or returns
early: only `call`-phase events and failed `setup`-phase events
qualify. -/
def qualifying (ev : TestReportEv) : Bool :=
  ev.phase = Phase.call || (ev.phase = Phase.setup && ev.failed)

/-- Hook `Reporter.pytest_runtest_logreport`: the `self.tests` mapping is an
insertion-ordered association list keyed by nodeid; a first event for a
nodeid creates the record (with empty `tags`), every qualifying event
appends one attempt. -/
def Reporter.pytest_runtest_logreport (r : Reporter)
    (tests : List (String × FKTest)) (now : Int) (ev : TestReportEv) :
    List (String × FKTest) :=
  if ¬ qualifying ev then tests
  else
    let attempt := build_attempt r now ev
    let tests :=
      if tests.any (fun kv => kv.1 = ev.nodeid) then tests
      else
        tests ++ [(ev.nodeid,
          { title := r.parse_test_title ev.nodeid
            location := build_location r ev
            attempts := []
            tags := [] })]
    tests.map (fun kv =>
      if kv.1 = ev.nodeid then
        (kv.1, { kv.2 with attempts := kv.2.attempts ++ [attempt] })
      else kv)

/-! ## `plugin.pytest_runtest_makereport`: marker partitioning -/

/-- An `Annotation`: a typed, described fact (`{type, description}`). -/
structure Annotation where
  type : String
  description : String
deriving DecidableEq, Repr

/-- A pytest marker as seen through `item.iter_markers()`: its name and
the `str()` renderings of its positional arguments. -/
structure Marker where
  name : String
  args : List String
deriving DecidableEq, Repr

/-- The fixed exclusion set of structural marker names in
`pytest_runtest_makereport`. -/
def IGNORED_MARKERS : List String :=
  ["parametrize", "usefixtures", "filterwarnings", "skip", "xfail"]

/-- The tag/annotation partition computed by `pytest_runtest_makereport`
and monkey-patched onto the report as `flakiness_injected_tags` and
`flakiness_injected_annotations`: ignored markers are dropped, a marker
with arguments becomes an annotation from its first argument, a bare
marker becomes a tag. -/
def extract_tags_annotations (markers : List Marker) :
    List String × List Annotation :=
  markers.foldl
    (fun acc m =>
      if IGNORED_MARKERS.contains m.name then acc
      else
        match m.args with
        | [] => (acc.1 ++ [m.name], acc.2)
        | a :: _ => (acc.1, acc.2 ++ [{ type := m.name, description := a }]))
    ([], [])

/-! ## `Reporter.pytest_sessionfinish` -/

/-- The `systemData` block built from `platform` introspection. -/
structure SystemData where
  osName : String
  osVersion : String
  osArch : String
deriving DecidableEq, Repr

/-- The `Environment` entry of the report. -/
structure Environment where
  name : String
  systemData : SystemData
  userSuppliedData : List (String × String)
deriving DecidableEq, Repr

/-- The single `Environment` entry built by `pytest_sessionfinish`.
`environ` is the process environment; the source builds
`userSuppliedData` as the literal `{"python_version": sys.version}` and
reads no environment variables. -/
def build_environment (osName osVersion osArch py_version : String)
    (environ : List (String × String)) : Environment :=
  { name := "pytest-host"
    systemData := { osName := osName, osVersion := osVersion, osArch := osArch }
    userSuppliedData := [("python_version", py_version)] }

/-- Filesystem side effects of `pytest_sessionfinish`. -/
inductive FsAction
  | mkdirp (dir : List String)
  | writeJson (file : List String)
deriving DecidableEq, Repr

/-- The filesystem actions performed by `pytest_sessionfinish`:
`flakiness_output_dir` is the value of the `--flakiness-output-dir`
option (`None` when not given); the source always uses
`Path.cwd() / "flakiness-report"` and never reads the option. -/
def pytest_sessionfinish_actions (cwd : List String)
    (flakiness_output_dir : Option String) : List FsAction :=
  let output_dir := cwd ++ ["flakiness-report"]
  [FsAction.mkdirp output_dir, FsAction.writeJson (output_dir ++ ["report.json"])]

/-! ## `uploader.upload_report` -/

/-- A JSON value, for request bodies. -/
inductive Json
  | str (s : String)
  | num (n : Int)
  | arr (xs : List Json)
  | obj (fields : List (String × Json))

/-- A `FileAttachment` record (`{contentType, id, path}`). -/
structure FileAttachment where
  contentType : String
  id : String
  path : String
deriving DecidableEq, Repr

/-- JSON serialization of a full `FileAttachment` record. -/
def FileAttachment.toJson (a : FileAttachment) : Json :=
  Json.obj [("contentType", Json.str a.contentType), ("id", Json.str a.id),
    ("path", Json.str a.path)]

/-- The request body POSTed to `/api/run/startUpload`: the source
passes `json={"attachmentIds": attachments}`, i.e. the full attachment
records, not their identifiers. -/
def startUpload_body (attachments : List FileAttachment) : Json :=
  Json.obj [("attachmentIds", Json.arr (attachments.map FileAttachment.toJson))]

/-- The fields extracted from the start-upload response
(`upload_data`): `attachment_upload_urls` is read with
`.get(..., {})`, hence optional. -/
structure StartUploadResponseData where
  report_upload_url : String
  attachment_upload_urls : Option (List (String × String))
  upload_token : String

/-- The external world of one `upload_report` call: outcomes of the
HTTP exchanges (an `Except.error` models an exception raised while
checking status, decoding JSON or reading a required key) and the local
filesystem. -/
structure UploadWorld where
  startData : Except String StartUploadResponseData
  putReportErr : Option String
  fileExists : String → Bool
  fileSize : String → Nat
  putAttachmentErr : String → Option String
  completeData : Except String (Option String)

/-- Observable actions of `upload_report`, in order. -/
inductive UploadAction
  | postStart (url : String) (body : Json)
  | putReport (url : String)
  | putAttachment (url : String) (contentType : String) (size : Nat)
  | warnMissing (path : String)
  | postComplete (url : String) (token : String)
  | printSuccess (reportUrl : Option String)
  | printFailure (msg : String)

/-- The attachment loop of `upload_report`: attachments without an
assigned URL are skipped silently, attachments whose local file does
not exist are skipped with a warning, remaining ones are PUT; a raised
exception stops the loop and is returned. -/
def attachment_phase (w : UploadWorld) (upload_urls : List (String × String)) :
    List FileAttachment → List UploadAction × Option String
  | [] => ([], none)
  | a :: rest =>
    match upload_urls.lookup a.id with
    | none => attachment_phase w upload_urls rest
    | some url =>
      if w.fileExists a.path then
        let act := UploadAction.putAttachment url a.contentType (w.fileSize a.path)
        match w.putAttachmentErr url with
        | some e => ([act], some e)
        | none =>
          let t := attachment_phase w upload_urls rest
          (act :: t.1, t.2)
      else
        let t := attachment_phase w upload_urls rest
        (UploadAction.warnMissing a.path :: t.1, t.2)

/-- Reading `upload_data.get("attachment_upload_urls", ...)` with an
empty-mapping default. -/
def StartUploadResponseData.urls (d : StartUploadResponseData) :
    List (String × String) :=
  match d.attachment_upload_urls with
  | some m => m
  | none => []

/-- Operation `uploader.upload_report`: the 4-phase upload sequence, with every
exception caught by the top-level `try/except` and converted into a
printed failure; the result is the full action trace. -/
def upload_report (w : UploadWorld) (attachments : List FileAttachment)
    (endpoint _token : String) : List UploadAction :=
  match w.startData with
  | Except.error e =>
    [UploadAction.postStart (endpoint ++ "/api/run/startUpload")
      (startUpload_body attachments)] ++ [UploadAction.printFailure e]
  | Except.ok d =>
    match w.putReportErr with
    | some e =>
      [UploadAction.postStart (endpoint ++ "/api/run/startUpload")
        (startUpload_body attachments),
       UploadAction.putReport d.report_upload_url] ++
      [UploadAction.printFailure e]
    | none =>
      match attachment_phase w d.urls attachments with
      | (acts, some e) =>
        [UploadAction.postStart (endpoint ++ "/api/run/startUpload")
          (startUpload_body attachments),
         UploadAction.putReport d.report_upload_url] ++ acts ++
        [UploadAction.printFailure e]
      | (acts, none) =>
        match w.completeData with
        | Except.error e =>
          [UploadAction.postStart (endpoint ++ "/api/run/startUpload")
            (startUpload_body attachments),
           UploadAction.putReport d.report_upload_url] ++ acts ++
          [UploadAction.postComplete (endpoint ++ "/api/run/completeUpload")
            d.upload_token] ++ [UploadAction.printFailure e]
        | Except.ok (some u) =>
          [UploadAction.postStart (endpoint ++ "/api/run/startUpload")
            (startUpload_body attachments),
           UploadAction.putReport d.report_upload_url] ++ acts ++
          [UploadAction.postComplete (endpoint ++ "/api/run/completeUpload")
            d.upload_token] ++
          [UploadAction.printSuccess
            (some (if u.startsWith "http" then u else endpoint ++ u))]
        | Except.ok none =>
          [UploadAction.postStart (endpoint ++ "/api/run/startUpload")
            (startUpload_body attachments),
           UploadAction.putReport d.report_upload_url] ++ acts ++
          [UploadAction.postComplete (endpoint ++ "/api/run/completeUpload")
            d.upload_token] ++ [UploadAction.printSuccess none]

/-! ## `github_oidc.GithubOIDC.fetch_token` -/

/-- One step of `urllib.parse.parse_qs`: append a value to its key's
group, creating the group at the end on first occurrence. -/
def insertQ (g : List (String × List String)) (k v : String) :
    List (String × List String) :=
  if g.any (fun p => p.1 = k) then
    g.map (fun p => if p.1 = k then (p.1, p.2 ++ [v]) else p)
  else g ++ [(k, [v])]

/-- Parsing `urllib.parse.parse_qs` on an already-split query-pair list: blank
values are dropped (default `keep_blank_values=False`), remaining pairs
are grouped by key in first-occurrence order. -/
def parse_qs (pairs : List (String × String)) : List (String × List String) :=
  (pairs.filter (fun p => p.2 ≠ "")).foldl (fun g p => insertQ g p.1 p.2) []

/-- Assignment `qs["audience"] = [audience]`: overwrite the audience group, or add
it at the end when absent. -/
def set_audience (g : List (String × List String)) (audience : String) :
    List (String × List String) :=
  if g.any (fun p => p.1 = "audience") then
    g.map (fun p => if p.1 = "audience" then (p.1, [audience]) else p)
  else g ++ [("audience", [audience])]

/-- Encoding `urllib.parse.urlencode(..., doseq=True)`: flatten the grouped
query back into key/value pairs. -/
def urlencode_doseq (g : List (String × List String)) :
    List (String × String) :=
  g.flatMap (fun p => p.2.map (fun v => (p.1, v)))

/-- The query-pair list of the URL requested by `fetch_token`, given
the query pairs of the configured request URL. -/
def fetch_token_query (pairs : List (String × String)) (audience : String) :
    List (String × String) :=
  urlencode_doseq (set_audience (parse_qs pairs) audience)

/-- The HTTP response observed by `fetch_token`: `ok` is
`response.ok`, `json` is the decoded body (`none` when `.json()`
raises), modelled as a flat string-to-string object. -/
structure OIDCResponse where
  ok : Bool
  status : Nat
  text : String
  json : Option (List (String × String))

/-- Operation `GithubOIDC.fetch_token` after the HTTP exchange: raise
(`Except.error`) when the response is not ok, the body is not JSON, or
the `value` field is missing or empty (falsy); otherwise return the
token. -/
def fetch_token (resp : OIDCResponse) : Except String String :=
  if ¬ resp.ok then
    Except.error ("Failed to request GitHub OIDC token: " ++
      toString resp.status ++ " " ++ resp.text)
  else
    match resp.json with
    | none => Except.error "response body is not valid JSON"
    | some data =>
      match data.lookup "value" with
      | none =>
        Except.error "GitHub OIDC token response did not contain a token value."
      | some token =>
        if token = "" then
          Except.error "GitHub OIDC token response did not contain a token value."
        else Except.ok token

/-! ## Concrete fixtures used to evaluate the embedding -/

/-- A reporter on a `'/'`-separator host with `git_root = pytest_root
= /repo`. -/
def rPosix : Reporter :=
  { sep := '/', commit_id := "deadbeef", git_root := ["repo"],
    pytest_root := ["repo"] }

/-- A failing `call`-phase event for a test decorated with the two bare
markers `smoke` and `foo` (`test_tags.py::test_should_work`). -/
def evTags : TestReportEv :=
  { nodeid := "test_tags.py::test_should_work"
    phase := Phase.call
    outcome := TestStatus.failed
    wasxfail := false
    duration_ms := 3
    loc_fspath := "test_tags.py"
    loc_lineno := some 4
    longrepr := LongreprValue.structured "assert False" none none }

/-- A passing `call`-phase event whose `longrepr` nonetheless carries a
string representation. -/
def evPassed : TestReportEv :=
  { nodeid := "test_a.py::test_ok"
    phase := Phase.call
    outcome := TestStatus.passed
    wasxfail := false
    duration_ms := 7
    loc_fspath := "test_a.py"
    loc_lineno := some 0
    longrepr := LongreprValue.str "Skipped: irrelevant" }

/-- One file attachment record. -/
def att1 : FileAttachment :=
  { contentType := "application/zip", id := "att-1", path := "/tmp/trace.zip" }

/-- An upload world where every network call succeeds, the start
response assigns an upload URL to `att-1`, and the attachment's local
file does not exist. -/
def w6 : UploadWorld :=
  { startData := Except.ok
      { report_upload_url := "https://s3.example/report"
        attachment_upload_urls := some [("att-1", "https://s3.example/att1")]
        upload_token := "tok-99" }
    putReportErr := none
    fileExists := fun _ => false
    fileSize := fun _ => 0
    putAttachmentErr := fun _ => none
    completeData := Except.ok none }

/-- A successful OIDC token response carrying `{"value": "tok-1"}`. -/
def respOk : OIDCResponse :=
  { ok := true, status := 200, text := "", json := some [("value", "tok-1")] }

/-- Query pairs of a request URL carrying a prior `audience` value and
one other parameter. -/
def qpairs0 : List (String × String) :=
  [("audience", "old"), ("api-version", "2.0")]

/-! ## Helper lemmas about the path model -/

theorem chopSep_ne_nil (sep : Char) (cs : List Char) : chopSep sep cs ≠ [] := by
  induction cs with
  | nil => simp [chopSep]
  | cons c rest ih =>
    simp only [chopSep]
    by_cases hc : c = sep
    · simp [hc]
    · simp only [hc, if_false]
      cases h : chopSep sep rest with
      | nil => simp
      | cons g gs => simp

theorem chopSep_no_sep (sep : Char) (cs : List Char) :
    ∀ g ∈ chopSep sep cs, sep ∉ g := by
  induction cs with
  | nil =>
    intro g hg
    simp [chopSep] at hg
    simp [hg]
  | cons c rest ih =>
    intro g hg
    simp only [chopSep] at hg
    by_cases hc : c = sep
    · simp only [hc, if_true] at hg
      rcases List.mem_cons.mp hg with h | h
      · simp [h]
      · exact ih g h
    · simp only [hc, if_false] at hg
      cases h : chopSep sep rest with
      | nil => exact absurd h (chopSep_ne_nil sep rest)
      | cons g0 gs =>
        rw [h] at hg
        rcases List.mem_cons.mp hg with h1 | h1
        · subst h1
          intro hmem
          rcases List.mem_cons.mp hmem with h2 | h2
          · exact hc h2.symm
          · exact ih g0 (h ▸ List.mem_cons_self g0 gs) h2
        · exact ih g (h ▸ List.mem_cons_of_mem g0 h1)

theorem chopSep_chars (sep : Char) (cs : List Char) :
    ∀ g ∈ chopSep sep cs, ∀ c ∈ g, c ∈ cs := by
  induction cs with
  | nil =>
    intro g hg c hc
    simp [chopSep] at hg
    subst hg
    simp at hc
  | cons d rest ih =>
    intro g hg c hc
    simp only [chopSep] at hg
    by_cases hd : d = sep
    · simp only [hd, if_true] at hg
      rcases List.mem_cons.mp hg with h | h
      · subst h; simp at hc
      · exact List.mem_cons_of_mem d (ih g h c hc)
    · simp only [hd, if_false] at hg
      cases h : chopSep sep rest with
      | nil => exact absurd h (chopSep_ne_nil sep rest)
      | cons g0 gs =>
        rw [h] at hg
        rcases List.mem_cons.mp hg with h1 | h1
        · subst h1
          rcases List.mem_cons.mp hc with h2 | h2
          · simp [h2]
          · exact List.mem_cons_of_mem d
              (ih g0 (h ▸ List.mem_cons_self g0 gs) c h2)
        · exact List.mem_cons_of_mem d
            (ih g (h ▸ List.mem_cons_of_mem g0 h1) c hc)

theorem chopSep_of_no_sep (sep : Char) (cs : List Char) (h : sep ∉ cs) :
    chopSep sep cs = [cs] := by
  induction cs with
  | nil => simp [chopSep]
  | cons c rest ih =>
    have hc : c ≠ sep := fun he => h (he ▸ List.mem_cons_self c rest)
    have hrest : sep ∉ rest := fun hm => h (List.mem_cons_of_mem c hm)
    simp only [chopSep, hc, if_false, ih hrest]

theorem chopSep_append_sep (sep : Char) (g tail : List Char) (h : sep ∉ g) :
    chopSep sep (g ++ sep :: tail) = g :: chopSep sep tail := by
  induction g with
  | nil => simp [chopSep]
  | cons c g' ih =>
    have hc : c ≠ sep := fun he => h (he ▸ List.mem_cons_self c g')
    have hg' : sep ∉ g' := fun hm => h (List.mem_cons_of_mem c hm)
    have hrec := ih hg'
    show chopSep sep (c :: (g' ++ sep :: tail)) = (c :: g') :: chopSep sep tail
    simp only [chopSep, hc, if_false]
    rw [hrec]

theorem chopSep_joinSep (sep : Char) (gs : List (List Char))
    (hne : gs ≠ []) (h : ∀ g ∈ gs, sep ∉ g) :
    chopSep sep (joinSep sep gs) = gs := by
  induction gs with
  | nil => exact absurd rfl hne
  | cons g rest ih =>
    cases rest with
    | nil =>
      simp only [joinSep]
      exact chopSep_of_no_sep sep g (h g (List.mem_cons_self g []))
    | cons g2 rest2 =>
      have hj : joinSep sep (g :: g2 :: rest2) = g ++ sep :: joinSep sep (g2 :: rest2) := rfl
      rw [hj, chopSep_append_sep sep g _ (h g (List.mem_cons_self g _)),
        ih (by simp) (fun x hx => h x (List.mem_cons_of_mem g hx))]

theorem joinSep_chars (sep : Char) (gs : List (List Char)) :
    ∀ c ∈ joinSep sep gs, c = sep ∨ ∃ g ∈ gs, c ∈ g := by
  induction gs with
  | nil => intro c hc; simp [joinSep] at hc
  | cons g rest ih =>
    intro c hc
    cases rest with
    | nil =>
      simp only [joinSep] at hc
      right; exact ⟨g, List.mem_cons_self g [], hc⟩
    | cons g2 rest2 =>
      have hj : joinSep sep (g :: g2 :: rest2) = g ++ sep :: joinSep sep (g2 :: rest2) := rfl
      rw [hj] at hc
      rcases List.mem_append.mp hc with h | h
      · right; exact ⟨g, List.mem_cons_self g _, h⟩
      · rcases List.mem_cons.mp h with h1 | h1
        · left; exact h1
        · rcases ih c h1 with h2 | ⟨g', hg', hc'⟩
          · left; exact h2
          · right; exact ⟨g', List.mem_cons_of_mem g hg', hc'⟩

theorem splitPath_elems (sep : Char) (x : String) :
    ∀ c ∈ splitPath sep x, c ≠ "" ∧ sep ∉ c.data := by
  intro c hc
  simp only [splitPath, List.mem_filter] at hc
  obtain ⟨hmem, hne⟩ := hc
  rcases List.mem_map.mp hmem with ⟨g, hg, hmk⟩
  refine ⟨by simpa using hne, ?_⟩
  rw [← hmk]
  exact chopSep_no_sep sep x.data g hg

theorem splitPath_chars (sep : Char) (x : String) :
    ∀ c ∈ splitPath sep x, ∀ ch ∈ c.data, ch ∈ x.data := by
  intro c hc ch hch
  simp only [splitPath, List.mem_filter] at hc
  rcases List.mem_map.mp hc.1 with ⟨g, hg, hmk⟩
  rw [← hmk] at hch
  exact chopSep_chars sep x.data g hg ch hch

theorem splitPath_renderRel (sep : Char) (comps : List String)
    (hne : comps ≠ []) (h : ∀ c ∈ comps, c ≠ "" ∧ sep ∉ c.data) :
    splitPath sep (renderRel sep comps) = comps := by
  simp only [renderRel, hne, if_false]
  simp only [splitPath]
  rw [chopSep_joinSep sep (comps.map (fun c => c.data)) (by simpa using hne)
    (fun g hg => by
      rcases List.mem_map.mp hg with ⟨c, hc, hcd⟩
      rw [← hcd]
      exact (h c hc).2)]
  have hmap : ∀ l : List String,
      (l.map (fun c => c.data)).map (fun cs => String.mk cs) = l := by
    intro l
    induction l with
    | nil => rfl
    | cons c rest ih =>
      simp only [List.map_cons]
      rw [ih]
  rw [hmap]
  refine List.filter_eq_self.mpr ?_
  intro c hc
  simpa using (h c hc).1

theorem foldl_resolveStep_mem (l : List String) :
    ∀ acc c, c ∈ l.foldl resolveStep acc → c ∈ acc ∨ c ∈ l := by
  induction l with
  | nil =>
    intro acc c hc
    exact Or.inl hc
  | cons d l' ih =>
    intro acc c hc
    rcases ih (resolveStep acc d) c hc with h | h
    · simp only [resolveStep] at h
      by_cases hd : d = "."
      · simp only [hd, if_true] at h
        exact Or.inl h
      · by_cases hd2 : d = ".."
        · simp only [hd, hd2, if_false, if_true] at h
          exact Or.inl (List.dropLast_subset acc h)
        · simp only [hd, hd2, if_false] at h
          rcases List.mem_append.mp h with h1 | h1
          · exact Or.inl h1
          · right
            simp at h1
            simp [h1]
    · exact Or.inr (List.mem_cons_of_mem d h)

theorem foldl_resolveStep_no_dot (l : List String) :
    ∀ acc, (∀ c ∈ acc, c ≠ "." ∧ c ≠ "..") →
    ∀ c ∈ l.foldl resolveStep acc, c ≠ "." ∧ c ≠ ".." := by
  induction l with
  | nil =>
    intro acc hacc c hc
    exact hacc c hc
  | cons d l' ih =>
    intro acc hacc c hc
    refine ih (resolveStep acc d) ?_ c hc
    intro x hx
    simp only [resolveStep] at hx
    by_cases hd : d = "."
    · simp only [hd, if_true] at hx
      exact hacc x hx
    · by_cases hd2 : d = ".."
      · simp only [hd, hd2, if_false, if_true] at hx
        exact hacc x (List.dropLast_subset acc hx)
      · simp only [hd, hd2, if_false] at hx
        rcases List.mem_append.mp hx with h1 | h1
        · exact hacc x h1
        · simp at h1
          subst h1
          exact ⟨hd, hd2⟩

theorem foldl_resolveStep_app (l : List String)
    (h : ∀ c ∈ l, c ≠ "." ∧ c ≠ "..") :
    ∀ acc, l.foldl resolveStep acc = acc ++ l := by
  induction l with
  | nil => intro acc; simp
  | cons d l' ih =>
    intro acc
    have hd := h d (List.mem_cons_self d l')
    have hstep : resolveStep acc d = acc ++ [d] := by
      simp only [resolveStep, hd.1, hd.2, if_false]
    simp only [List.foldl_cons, hstep,
      ih (fun c hc => h c (List.mem_cons_of_mem d hc)) (acc ++ [d])]
    simp

theorem resolveDots_no_dot (l : List String) :
    ∀ c ∈ resolveDots l, c ≠ "." ∧ c ≠ ".." := by
  intro c hc
  exact foldl_resolveStep_no_dot l [] (by simp) c hc

theorem resolveDots_mem (l : List String) :
    ∀ c ∈ resolveDots l, c ∈ l := by
  intro c hc
  rcases foldl_resolveStep_mem l [] c hc with h | h
  · simp at h
  · exact h

theorem resolveDots_append_of_no_dots (root l : List String)
    (hroot : ∀ c ∈ root, c ≠ "." ∧ c ≠ "..")
    (hl : ∀ c ∈ l, c ≠ "." ∧ c ≠ "..") :
    resolveDots (root ++ l) = root ++ l := by
  unfold resolveDots
  rw [List.foldl_append]
  rw [foldl_resolveStep_app root hroot []]
  simp only [List.nil_append]
  exact foldl_resolveStep_app l hl root

theorem isAbsolute_renderRel (sep : Char) (comps : List String)
    (hne : comps ≠ []) (h : ∀ c ∈ comps, c ≠ "" ∧ sep ∉ c.data) :
    isAbsolute sep (renderRel sep comps) = false := by
  simp only [renderRel, hne, if_false]
  cases comps with
  | nil => exact absurd rfl hne
  | cons c0 rest =>
    have h0 := h c0 (List.mem_cons_self c0 rest)
    cases hd : c0.data with
    | nil =>
      exfalso
      apply h0.1
      have : c0 = String.mk c0.data := rfl
      rw [this, hd]
    | cons ch chs =>
      have hch : ch ≠ sep := by
        intro he
        exact h0.2 (hd ▸ (he ▸ List.mem_cons_self ch chs))
      have hjoin : ∃ rest2, joinSep sep ((c0 :: rest).map (fun c => c.data)) =
          ch :: rest2 := by
        cases rest with
        | nil =>
          exact ⟨chs, by simp only [List.map_cons, List.map_nil, joinSep, hd]⟩
        | cons c1 rest1 =>
          refine ⟨chs ++ sep :: joinSep sep ((c1 :: rest1).map (fun c => c.data)), ?_⟩
          show c0.data ++ sep :: joinSep sep ((c1 :: rest1).map (fun c => c.data)) = _
          rw [hd]
          rfl
      rcases hjoin with ⟨rest2, hj⟩
      simp only [isAbsolute, hj]
      simp [hch]

/-- C2 (amended): when the run root equals the repository root (given
resolved: components nonempty, separator-free, no dot segments),
`normalize_path` is idempotent — a returned path normalizes to itself —
and, since the output is rendered with the native separator and no
separator replacement is performed, on a host whose separator is `'/'`
the output contains no backslash provided the input and the root
contain none (on a backslash-separator host the output does contain
backslashes, see the counterexample). -/
theorem C2_normalize_path_idempotent_same_roots (sep : Char) (cid : String)
    (root : List String) (p s : String)
    (hsep : sep ≠ '.')
    (hroot : ∀ c ∈ root, c ≠ "" ∧ sep ∉ c.data ∧ c ≠ "." ∧ c ≠ "..")
    (hnp : Reporter.normalize_path ⟨sep, cid, root, root⟩ p = some s) :
    Reporter.normalize_path ⟨sep, cid, root, root⟩ s = some s ∧
    (sep = '/' → ('\\' : Char) ∉ p.data →
      (∀ c ∈ root, ('\\' : Char) ∉ c.data) → ('\\' : Char) ∉ s.data) := by
  have hrootDots : ∀ c ∈ root, c ≠ "." ∧ c ≠ ".." :=
    fun c hc => ⟨(hroot c hc).2.2.1, (hroot c hc).2.2.2⟩
  unfold Reporter.normalize_path at hnp
  simp only at hnp
  set A := (if isAbsolute sep p = true then splitPath sep p
    else root ++ splitPath sep p) with hA
  set R := resolveDots A with hR
  set D := R.drop root.length with hDdef
  by_cases hpre : root.isPrefixOf R = true
  on_goal 2 => rw [if_neg hpre] at hnp; exact absurd hnp (by simp)
  rw [if_pos hpre] at hnp
  have hsr : renderRel sep D = s := Option.some.inj hnp
  have hDelem : ∀ c ∈ D, (c ≠ "" ∧ sep ∉ c.data) ∧ (c ≠ "." ∧ c ≠ "..") := by
    intro c hc
    have hcR : c ∈ R := List.drop_subset root.length R (hDdef ▸ hc)
    have hcA : c ∈ A := resolveDots_mem A c (hR ▸ hcR)
    constructor
    · rw [hA] at hcA
      by_cases habs : isAbsolute sep p = true
      · rw [if_pos habs] at hcA
        exact splitPath_elems sep p c hcA
      · rw [if_neg habs] at hcA
        rcases List.mem_append.mp hcA with h1 | h1
        · exact ⟨(hroot c h1).1, (hroot c h1).2.1⟩
        · exact splitPath_elems sep p c h1
    · exact resolveDots_no_dot A c (hR ▸ hcR)
  by_cases hDnil : D = []
  · have hs : s = "." := by rw [← hsr, hDnil]; rfl
    have hdata : (".").data = ['.'] := by decide
    have hne1 : ¬ ('.' = sep) := fun hh => hsep hh.symm
    have hdot : splitPath sep "." = ["."] := by
      simp only [splitPath, hdata, chopSep, hne1, if_false]
      simp
    have habs : isAbsolute sep "." = false := by
      simp only [isAbsolute, hdata]
      simp [hne1]
    constructor
    · rw [hs]
      unfold Reporter.normalize_path
      simp only [hdot, habs, Bool.false_eq_true, if_false]
      have hres : resolveDots (root ++ ["."]) = root := by
        unfold resolveDots
        rw [List.foldl_append, foldl_resolveStep_app root hrootDots []]
        simp [resolveStep]
      rw [hres]
      have hpre2 : root.isPrefixOf root = true := by
        simp [ List.isPrefixOf_iff_prefix]
      simp [hpre2, renderRel, List.drop_length]
    · intro _ _ _
      rw [hs, hdata]
      decide
  · have hDel1 : ∀ c ∈ D, c ≠ "" ∧ sep ∉ c.data := fun c hc => (hDelem c hc).1
    have hsplit : splitPath sep s = D := by
      rw [← hsr]
      exact splitPath_renderRel sep D hDnil hDel1
    have habs : isAbsolute sep s = false := by
      rw [← hsr]
      exact isAbsolute_renderRel sep D hDnil hDel1
    constructor
    · unfold Reporter.normalize_path
      simp only [hsplit, habs, Bool.false_eq_true, if_false]
      have hres : resolveDots (root ++ D) = root ++ D :=
        resolveDots_append_of_no_dots root D hrootDots (fun c hc => (hDelem c hc).2)
      rw [hres]
      have hpre2 : root.isPrefixOf (root ++ D) = true := by
        simp only [ List.isPrefixOf_iff_prefix]
        exact ⟨D, rfl⟩
      simp [hpre2, List.drop_left, hsr]
    · intro hsep2 hp hrootbs hmem
      have hsdata : s.data = joinSep sep (D.map (fun c => c.data)) := by
        rw [← hsr]
        simp [renderRel, hDnil]
      rw [hsdata] at hmem
      rcases joinSep_chars sep (D.map (fun c => c.data)) '\\' hmem with h1 | ⟨g, hg, hcg⟩
      · rw [hsep2] at h1
        exact absurd h1 (by decide)
      · rcases List.mem_map.mp hg with ⟨d, hdD, hdg⟩
        rw [← hdg] at hcg
        have hdR : d ∈ R := List.drop_subset root.length R (hDdef ▸ hdD)
        have hdA : d ∈ A := resolveDots_mem A d (hR ▸ hdR)
        rw [hA] at hdA
        by_cases habsp : isAbsolute sep p = true
        · rw [if_pos habsp] at hdA
          exact hp (splitPath_chars sep p d hdA '\\' hcg)
        · rw [if_neg habsp] at hdA
          rcases List.mem_append.mp hdA with h1 | h1
          · exact hrootbs d h1 hcg
          · exact hp (splitPath_chars sep p d h1 '\\' hcg)

/-- Witness for C2 at `sep = '/'`, root `/repo`, input
`/repo/src/a.py` (output `src/a.py`). -/
theorem C2_normalize_path_idempotent_same_roots_witness :
    Reporter.normalize_path ⟨'/', "c", ["repo"], ["repo"]⟩ "/repo/src/a.py" =
      some "src/a.py" ∧
    (Reporter.normalize_path ⟨'/', "c", ["repo"], ["repo"]⟩ "src/a.py" =
      some "src/a.py" ∧
    ('/' = '/' → ('\\' : Char) ∉ "/repo/src/a.py".data →
      (∀ c ∈ ["repo"], ('\\' : Char) ∉ c.data) →
      ('\\' : Char) ∉ "src/a.py".data)) :=
  ⟨by decide,
    C2_normalize_path_idempotent_same_roots '/' "c" ["repo"] "/repo/src/a.py"
      "src/a.py" (by decide) (by decide) (by decide)⟩

/-- Counterexample for C2 as stated: with distinct run and repository
roots, normalizing an already-normalized path changes it (on a POSIX
host); and on a backslash-separator host the output contains a
backslash, because the source never replaces OS separators with `/`. -/
theorem C2_counterexample :
    (Reporter.normalize_path ⟨'/', "c", ["repo"], ["repo", "tests"]⟩
        "/repo/src/a.py" = some "src/a.py" ∧
      Reporter.normalize_path ⟨'/', "c", ["repo"], ["repo", "tests"]⟩
        "src/a.py" = some "tests/src/a.py" ∧
      "tests/src/a.py" ≠ "src/a.py") ∧
    (Reporter.normalize_path ⟨'\\', "c", ["C:", "repo"], ["C:", "repo"]⟩
        "\\C:\\repo\\sub\\a.py" = some "sub\\a.py" ∧
      ('\\' : Char) ∈ "sub\\a.py".data) := by
  exact ⟨⟨by decide, by decide, by decide⟩, ⟨by decide, by decide⟩⟩

/-- C1: for every recorded attempt, the expected status is `"passed"`
by default, `"failed"` when the event carries `wasxfail`, and forced to
`"skipped"` whenever the runner outcome is `"skipped"` (even when
`wasxfail` is also present); the recorded status is always the
runner-reported outcome verbatim. -/
theorem C1_status_and_expectation (r : Reporter) (now : Int) (ev : TestReportEv) :
    (build_attempt r now ev).status = ev.outcome ∧
    (build_attempt r now ev).expectedStatus =
      (if ev.outcome = TestStatus.skipped then TestStatus.skipped
       else if ev.wasxfail then TestStatus.failed else TestStatus.passed) :=
  ⟨rfl, rfl⟩

/-- C10: an attempt carries an `Error` only when the runner outcome is
a failure — for `"passed"` or `"skipped"` outcomes the errors list is
empty even when a `longrepr` is present — and a failed attempt carries
at most one `Error`. -/
theorem C10_errors_only_on_failure (r : Reporter) (now : Int) (ev : TestReportEv) :
    (ev.outcome ≠ TestStatus.failed → (build_attempt r now ev).errors = []) ∧
    (build_attempt r now ev).errors.length ≤ 1 := by
  constructor
  · intro hne
    simp only [build_attempt]
    cases hpe : r.parse_pytest_error ev.longrepr with
    | none => rfl
    | some e => simp [TestReportEv.failed, hne]
  · simp only [build_attempt]
    cases hpe : r.parse_pytest_error ev.longrepr with
    | none => simp
    | some e =>
      by_cases hf : ev.failed = true
      · simp [hf]
      · simp [hf]

/-- Witness for C10 at a passing event carrying a string `longrepr`. -/
theorem C10_errors_only_on_failure_witness :
    (build_attempt rPosix 1000 evPassed).errors = [] ∧
    (build_attempt rPosix 1000 evPassed).errors.length ≤ 1 :=
  ⟨(C10_errors_only_on_failure rPosix 1000 evPassed).1 (by decide),
   (C10_errors_only_on_failure rPosix 1000 evPassed).2⟩

/-- C9 (code bug): the crash-site `Location` built by
`parse_pytest_error` records column 0, not a 1-based (≥ 1) column: the
source writes `Number1Based(0)` into the column field. -/
theorem C9_error_location_column_zero :
    Reporter.parse_pytest_error rPosix
      (LongreprValue.structured "assert 1 == 2"
        (some { message := some "AssertionError: boom",
                path := some "/repo/test_a.py", lineno := some 5 }) none) =
      some { message := "AssertionError: boom", stack := some "assert 1 == 2",
             snippet := none,
             location := some { file := "test_a.py", line := 6, column := 0 } } := by
  decide

/-- C5 (code bug): `pytest_sessionfinish` builds the environment's
user-supplied metadata as the literal `{"python_version": ...}` and
harvests nothing from the process environment: with `FK_ENV_BUILD_ID`
set, no `build_id` key appears. -/
theorem C5_env_metadata_not_harvested :
    (build_environment "Linux" "6.8.0" "x86_64" "3.12.1"
        [("FK_ENV_BUILD_ID", "12345"), ("FK_ENV_BRANCH", "main")]).userSuppliedData =
      [("python_version", "3.12.1")] ∧
    ((build_environment "Linux" "6.8.0" "x86_64" "3.12.1"
        [("FK_ENV_BUILD_ID", "12345"),
         ("FK_ENV_BRANCH", "main")]).userSuppliedData).lookup "build_id" = none := by
  exact ⟨rfl, by decide⟩

/-- C4 (code bug): `pytest_sessionfinish` writes
`<cwd>/flakiness-report/report.json` unconditionally: the write happens
even with no configured output directory, and a configured
`--flakiness-output-dir` value is ignored. -/
theorem C4_report_written_unconditionally :
    pytest_sessionfinish_actions ["tmp", "proj"] none =
      [FsAction.mkdirp ["tmp", "proj", "flakiness-report"],
       FsAction.writeJson ["tmp", "proj", "flakiness-report", "report.json"]] ∧
    pytest_sessionfinish_actions ["tmp", "proj"] (some "my_flake_report") =
      pytest_sessionfinish_actions ["tmp", "proj"] none ∧
    FsAction.writeJson ["tmp", "proj", "my_flake_report", "report.json"] ∉
      pytest_sessionfinish_actions ["tmp", "proj"] (some "my_flake_report") := by
  exact ⟨by decide, by decide, by decide⟩

/-- C3 (code bug): for a failing test with the two bare markers `smoke`
and `foo`, the plugin hook computes the injected tags
`["smoke", "foo"]`, but the reporter creates the test record with
`tags = []` and never reads the injected tags; the attempt itself has
status `"failed"` and expected status `"passed"` as claimed. -/
theorem C3_tags_dropped_by_reporter :
    extract_tags_annotations
        [{ name := "smoke", args := [] }, { name := "foo", args := [] }] =
      (["smoke", "foo"], []) ∧
    Reporter.pytest_runtest_logreport rPosix [] 1000 evTags =
      [("test_tags.py::test_should_work",
        { title := "test_should_work"
          location := some { file := "test_tags.py", line := 5, column := 1 }
          attempts := [{ environmentIdx := 0
                         expectedStatus := TestStatus.passed
                         status := TestStatus.failed
                         startTimestamp := 997
                         duration := 3
                         errors := [{ message := "assert False",
                                      stack := some "assert False",
                                      snippet := none, location := none }] }]
          tags := [] })] := by
  exact ⟨by decide, by decide⟩

/-- C7 (code bug): the start phase POSTs the full attachment records —
content type, id and local path — under `attachmentIds`, not the list
of identifiers alone. -/
theorem C7_start_posts_full_records :
    startUpload_body [att1] =
      Json.obj [("attachmentIds", Json.arr [Json.obj
        [("contentType", Json.str "application/zip"), ("id", Json.str "att-1"),
         ("path", Json.str "/tmp/trace.zip")]])] ∧
    startUpload_body [att1] ≠
      Json.obj [("attachmentIds", Json.arr [Json.str "att-1"])] := by
  refine ⟨rfl, ?_⟩
  intro hcontra
  have hval : startUpload_body [att1] =
      Json.obj [("attachmentIds", Json.arr [Json.obj
        [("contentType", Json.str "application/zip"), ("id", Json.str "att-1"),
         ("path", Json.str "/tmp/trace.zip")]])] := rfl
  rw [hval] at hcontra
  injection hcontra with h1
  injection h1 with h2 h3
  injection h2 with h4 h5
  injection h5 with h6
  injection h6 with h7 h8
  exact Json.noConfusion h7

/-! ## Helper lemmas about association-list lookups -/

theorem lookup_map_overwrite (g : List (String × List String)) (k : String)
    (v : List String) (h : g.any (fun p => p.1 = k) = true) :
    (g.map (fun p => if p.1 = k then (p.1, v) else p)).lookup k = some v := by
  induction g with
  | nil => simp at h
  | cons p rest ih =>
    obtain ⟨pk, pv⟩ := p
    rw [List.map_cons]
    by_cases hp : pk = k
    · have hf : (if (pk, pv).1 = k then ((pk, pv).1, v) else (pk, pv)) = (pk, v) := by
        simp [hp]
      rw [hf]
      have hbeq : (k == pk) = true := by simp [hp]
      simp [List.lookup, hbeq]
    · have h' : rest.any (fun q => q.1 = k) = true := by
        simpa [hp] using h
      have hf : (if (pk, pv).1 = k then ((pk, pv).1, v) else (pk, pv)) = (pk, pv) := by
        simp [hp]
      rw [hf]
      have hbeq : (k == pk) = false := beq_eq_false_iff_ne.mpr (Ne.symm hp)
      simp [List.lookup, hbeq, ih h']

theorem lookup_map_other (g : List (String × List String)) (k k' : String)
    (v : List String) (hk : k' ≠ k) :
    (g.map (fun p => if p.1 = k then (p.1, v) else p)).lookup k' = g.lookup k' := by
  induction g with
  | nil => rfl
  | cons p rest ih =>
    obtain ⟨pk, pv⟩ := p
    rw [List.map_cons]
    by_cases hp : pk = k
    · have hf : (if (pk, pv).1 = k then ((pk, pv).1, v) else (pk, pv)) = (pk, v) := by
        simp [hp]
      rw [hf]
      have hbeq : (k' == pk) = false :=
        beq_eq_false_iff_ne.mpr (fun he => hk (he.trans hp))
      simp [List.lookup, hbeq, ih]
    · have hf : (if (pk, pv).1 = k then ((pk, pv).1, v) else (pk, pv)) = (pk, pv) := by
        simp [hp]
      rw [hf]
      cases hbeq : (k' == pk) with
      | true => simp [List.lookup, hbeq]
      | false => simp [List.lookup, hbeq, ih]

theorem lookup_append_single_other (g : List (String × List String))
    (ka k' : String) (va : List String) (hk : k' ≠ ka) :
    (g ++ [(ka, va)]).lookup k' = g.lookup k' := by
  induction g with
  | nil =>
    have hbeq : (k' == ka) = false := beq_eq_false_iff_ne.mpr hk
    simp [List.lookup, hbeq]
  | cons p rest ih =>
    obtain ⟨pk, pv⟩ := p
    cases hbeq : (k' == pk) with
    | true => simp [List.lookup, hbeq]
    | false => simp [List.lookup, hbeq, ih]

theorem lookup_append_single_self (g : List (String × List String))
    (k : String) (v : List String) (h : g.any (fun p => p.1 = k) = false) :
    (g ++ [(k, v)]).lookup k = some v := by
  induction g with
  | nil => simp [List.lookup]
  | cons p rest ih =>
    obtain ⟨pk, pv⟩ := p
    simp only [List.any_cons, Bool.or_eq_false_iff] at h
    have hp : ¬ (pk = k) := by simpa using h.1
    have hbeq : (k == pk) = false := beq_eq_false_iff_ne.mpr (Ne.symm hp)
    simp [List.lookup, hbeq, ih h.2]

theorem set_audience_lookup_self (g : List (String × List String))
    (aud : String) :
    (set_audience g aud).lookup "audience" = some [aud] := by
  unfold set_audience
  by_cases h : g.any (fun p => p.1 = "audience") = true
  · simp only [h, if_true]
    exact lookup_map_overwrite g "audience" [aud] h
  · simp only [h, if_false]
    refine lookup_append_single_self g "audience" [aud] ?_
    simp only [Bool.not_eq_true] at h
    exact h

theorem set_audience_lookup_other (g : List (String × List String))
    (aud k : String) (hk : k ≠ "audience") :
    (set_audience g aud).lookup k = g.lookup k := by
  unfold set_audience
  by_cases h : g.any (fun p => p.1 = "audience") = true
  · simp only [h, if_true]
    exact lookup_map_other g "audience" k [aud] hk
  · simp only [h, if_false]
    exact lookup_append_single_other g "audience" k [aud] hk

/-- C8: `fetch_token` raises exactly when the HTTP response is not
successful or the body lacks a (non-empty) token value, and otherwise
returns the token from the JSON body; the request URL's query is
rewritten so that `audience` maps to the given value, overwriting any
prior value and leaving every other parameter's values unchanged. -/
theorem C8_fetch_token_contract (pairs : List (String × String))
    (audience k : String) (resp : OIDCResponse) (hk : k ≠ "audience") :
    (set_audience (parse_qs pairs) audience).lookup "audience" = some [audience] ∧
    (set_audience (parse_qs pairs) audience).lookup k = (parse_qs pairs).lookup k ∧
    ((∃ e, fetch_token resp = Except.error e) ↔
      (resp.ok = false ∨ resp.json = none ∨
        ∃ data, resp.json = some data ∧
          (data.lookup "value" = none ∨ data.lookup "value" = some ""))) ∧
    (∀ data token, resp.json = some data → data.lookup "value" = some token →
      token ≠ "" → resp.ok = true → fetch_token resp = Except.ok token) := by
  refine ⟨set_audience_lookup_self (parse_qs pairs) audience,
    set_audience_lookup_other (parse_qs pairs) audience k hk, ?_, ?_⟩
  · cases hok : resp.ok with
    | false =>
      have hft : fetch_token resp = Except.error
          ("Failed to request GitHub OIDC token: " ++
            toString resp.status ++ " " ++ resp.text) := by
        simp only [fetch_token, hok]
        simp
      exact iff_of_true ⟨_, hft⟩ (Or.inl rfl)
    | true =>
      cases hjson : resp.json with
      | none =>
        have hft : fetch_token resp = Except.error
            "response body is not valid JSON" := by
          simp only [fetch_token, hok, hjson]
          simp
        exact iff_of_true ⟨_, hft⟩ (Or.inr (Or.inl rfl))
      | some data =>
        cases hval : data.lookup "value" with
        | none =>
          have hft : fetch_token resp = Except.error
              "GitHub OIDC token response did not contain a token value." := by
            simp only [fetch_token, hok, hjson, hval]
            simp
          exact iff_of_true ⟨_, hft⟩
            (Or.inr (Or.inr ⟨data, rfl, Or.inl hval⟩))
        | some token =>
          by_cases htok : token = ""
          · subst htok
            have hft : fetch_token resp = Except.error
                "GitHub OIDC token response did not contain a token value." := by
              simp only [fetch_token, hok, hjson, hval]
              simp
            exact iff_of_true ⟨_, hft⟩
              (Or.inr (Or.inr ⟨data, rfl, Or.inr hval⟩))
          · have hft : fetch_token resp = Except.ok token := by
              simp only [fetch_token, hok, hjson, hval]
              simp [htok]
            refine iff_of_false ?_ ?_
            · rintro ⟨e, he⟩
              rw [hft] at he
              exact Except.noConfusion he
            · rintro (h1 | h2 | ⟨data2, hd2, hv2⟩)
              · exact Bool.noConfusion h1
              · exact Option.noConfusion h2
              · have hde : data = data2 := Option.some.inj hd2
                subst hde
                rcases hv2 with hv2 | hv2
                · rw [hval] at hv2
                  exact Option.noConfusion hv2
                · rw [hval] at hv2
                  exact htok (Option.some.inj hv2)
  · intro data token hjson hval htok hok
    simp only [fetch_token, hok, hjson, hval]
    simp [htok]

/-- Witness for C8 at a concrete query (with a prior `audience` value
and an `api-version` parameter) and a successful token response. -/
theorem C8_fetch_token_contract_witness :
    (set_audience (parse_qs qpairs0) "myorg/proj").lookup "audience" =
      some ["myorg/proj"] ∧
    (set_audience (parse_qs qpairs0) "myorg/proj").lookup "api-version" =
      (parse_qs qpairs0).lookup "api-version" ∧
    ((∃ e, fetch_token respOk = Except.error e) ↔
      (respOk.ok = false ∨ respOk.json = none ∨
        ∃ data, respOk.json = some data ∧
          (data.lookup "value" = none ∨ data.lookup "value" = some ""))) ∧
    (∀ data token, respOk.json = some data → data.lookup "value" = some token →
      token ≠ "" → respOk.ok = true → fetch_token respOk = Except.ok token) :=
  C8_fetch_token_contract qpairs0 "myorg/proj" "api-version" respOk (by decide)

/-- C6: an attachment whose local file does not exist is skipped with a
warning and the upload still reaches the complete phase with no
exception propagating; more generally, every exception raised anywhere
in the 4-phase sequence is caught at the top level, so the call always
ends with a printed success or failure instead of crashing. -/
theorem C6_missing_attachment_skipped_and_no_crash :
    upload_report w6 [att1] "https://flakiness.io" "secret-token" =
      [UploadAction.postStart "https://flakiness.io/api/run/startUpload"
        (startUpload_body [att1]),
       UploadAction.putReport "https://s3.example/report",
       UploadAction.warnMissing "/tmp/trace.zip",
       UploadAction.postComplete "https://flakiness.io/api/run/completeUpload"
         "tok-99",
       UploadAction.printSuccess none] ∧
    (∀ w atts endpoint token,
      (∃ u, (upload_report w atts endpoint token).getLast? =
        some (UploadAction.printSuccess u)) ∨
      (∃ m, (upload_report w atts endpoint token).getLast? =
        some (UploadAction.printFailure m))) := by
  constructor
  · rfl
  · intro w atts endpoint token
    unfold upload_report
    split
    · right
      exact ⟨_, List.getLast?_concat _⟩
    · split
      · right
        exact ⟨_, List.getLast?_concat _⟩
      · split
        · right
          exact ⟨_, List.getLast?_concat _⟩
        · split
          · right
            exact ⟨_, List.getLast?_concat _⟩
          · left
            exact ⟨_, List.getLast?_concat _⟩
          · left
            exact ⟨_, List.getLast?_concat _⟩

end PytestFlakiness
